import Mathlib

/-!
Verification of the keyseq shorthand parser (`src/macro/src/lib.rs`).

The parser turns a token stream such as `ctrl-shift-A` into a pair of a
modifier bitmask expression and a canonical key identifier, and
`pkeyseq` iterates the single-chord reader over leftover tokens.  The
definitions below are a shallow embedding of the Rust source: token
trees become an inductive type, the emitted `proc_macro2::TokenStream`
of the modifier expression becomes a list of atoms (`ModTok`), panics
and `abort!` calls become `Except` errors, and the entry points `pkey`,
`lkey` and `pkeyseq` are translated clause by clause.
-/

/-- Token model: `proc_macro2::TokenTree` restricted to what the parser
inspects — a literal (carrying its source text), a punctuation
character, an identifier (carrying its source text), or a delimited
group with a nested stream. -/
inductive TokenTree where
  | lit (text : String)
  | punct (c : Char)
  | ident (label : String)
  | group (inner : List TokenTree)

/-- Diagnostics.  Each constructor corresponds to one `abort!`,
`todo!` or `.expect(..)` site of the source. -/
inductive Diag where
  | lowercaseKeyName (c : Char)
  | unimplementedLiteral (text : String)
  | unimplementedPunct (c : Char)
  | unimplementedIdentChar (c : Char)
  | noTokenTree
  | noLogicalKeyFound
  | tooManyTokens
  | unknownBackendKey (n : String)
deriving DecidableEq

/-- The `Modifier` enum of the source, with the same discriminants
(`None = 0, Shift = 1, Control = 2, Alt = 3, Super = 4`). -/
inductive Modifier where
  | none
  | shift
  | control
  | alt
  | super
deriving DecidableEq

/-- Discriminant of a `Modifier` (`modifier as u8` in the source). -/
def Modifier.code : Modifier → Nat
  | Modifier.none => 0
  | Modifier.shift => 1
  | Modifier.control => 2
  | Modifier.alt => 3
  | Modifier.super => 4

/-- `modifiers_id`: the numeric flag emitted for a modifier,
`1 << (code - 1)` for nonzero codes and `0` for `None`. -/
def modifiers_id (m : Modifier) : Nat :=
  let n := m.code
  if n = 0 then 0 else Nat.shiftLeft 1 (n - 1)

/-- One atom of the token stream emitted by `read_modifiers`: either a
group wrapping a `modifiers_id` flag, the `'|'` punct inserted for a
dash, or an input token passed through verbatim (`replacement.unwrap_or(tree)`). -/
inductive ModTok where
  | flag (n : Nat)
  | bar
  | raw (t : TokenTree)

/-- The emitted chord value: the modifier expression stream paired with
the resolved key identifier string. -/
abbrev Chord := List ModTok × String

/-- A pluggable key resolver (`get_pkey`, `get_key`, …): `Except.ok
none` models the Rust `None` (token kind not resolvable at all),
`Except.error` models `abort!`/`todo!`. -/
abbrev Resolver := TokenTree → Except Diag (Option String)

/-- The `is_dash` helper of `read_modifiers`. -/
def is_dash : TokenTree → Bool
  | TokenTree.punct c => c = '-'
  | _ => false

/-- The `replacement` computed for each consumed token inside
`read_modifiers`: recognized modifier names become their flag, a dash
becomes the OR operator, and everything else is kept verbatim
(`replacement.unwrap_or(tree)`). -/
def replacement (t : TokenTree) : ModTok :=
  match t with
  | TokenTree.ident l =>
    if l = ("shift") then ModTok.flag (modifiers_id Modifier.shift)
    else if l = ("ctrl") then ModTok.flag (modifiers_id Modifier.control)
    else if l = ("alt") then ModTok.flag (modifiers_id Modifier.alt)
    else if l = ("super") then ModTok.flag (modifiers_id Modifier.super)
    else ModTok.raw t
  | TokenTree.punct c => if c = '-' then ModTok.bar else ModTok.raw t
  | t => ModTok.raw t

/-- The scanning loop of `read_modifiers`: it consumes the current
token exactly when a next token exists and the current or the next
token is a dash; otherwise it stops, leaving the current token at the
head of the remainder (`last_tree`). -/
def read_modifiers_core : List TokenTree → List ModTok × List TokenTree
  | [] => ([], [])
  | [t] => ([], [t])
  | t :: t2 :: rest =>
    if !(is_dash t) && !(is_dash t2) then ([], t :: t2 :: rest)
    else
      let p := read_modifiers_core (t2 :: rest)
      (replacement t :: p.1, p.2)

/-- `read_modifiers`: run the scan and append the terminating
`modifiers_id(Modifier::None)` flag. -/
def read_modifiers (input : List TokenTree) : List ModTok × List TokenTree :=
  let p := read_modifiers_core input
  (p.1 ++ [ModTok.flag (modifiers_id Modifier.none)], p.2)

/-- Source text of the Rust literal `'\''` (built from character codes
to keep the embedding readable). -/
def apostropheText : String := String.mk [Char.ofNat 39, Char.ofNat 92, Char.ofNat 39, Char.ofNat 39]

/-- Source text of the Rust literal with a backquote between two quote
characters. -/
def graveText : String := String.mk [Char.ofNat 39, Char.ofNat 96, Char.ofNat 39]

/-- Source text of the Rust literal `'\\'`. -/
def backslashText : String := String.mk [Char.ofNat 39, Char.ofNat 92, Char.ofNat 92, Char.ofNat 39]

/-- The `x.len() == 1 && x.parse::<u8>().is_ok()` test of `get_pkey`
for a literal's source text: a single decimal digit. -/
def digitLit (x : String) : Bool :=
  x.length == 1 && x.data.all Char.isDigit

/-- The punctuation arm of `get_pkey`, written as the association list
its `match` spells out. -/
def pkeyPunctTable : List (Char × String) :=
  [ (';', ("Semicolon")), (':', ("Colon")), (',', ("Comma")), ('.', ("Period")),
    ('^', ("Caret")), ('=', ("Equals")), ('/', ("Slash")), ('-', ("Minus")),
    ('*', ("Asterisk")), ('+', ("Plus")), ('@', ("At")) ]

/-- First-match lookup in an association table, mirroring a Rust
`match` over its arms in order. -/
def tableLookup : List (Char × String) → Char → Option String
  | [], _ => Option.none
  | (c, n) :: rest, d => if c = d then Option.some n else tableLookup rest d

/-- `get_pkey`: the physical-key resolver.  Digit literals map to
`Key{d}`, the three special literals map through their fixed table,
punctuation maps through `pkeyPunctTable` (anything else is a
`todo!`), a single-letter name must be uppercase (`abort!` on
lowercase), and a multi-character name is used verbatim.  Group tokens
fall through to `None`. -/
def get_pkey : Resolver
  | TokenTree.lit x =>
    if digitLit x then Except.ok (Option.some ("Key" ++ x))
    else if x = apostropheText then Except.ok (Option.some ("Apostrophe"))
    else if x = graveText then Except.ok (Option.some ("Grave"))
    else if x = backslashText then Except.ok (Option.some ("Backslash"))
    else Except.error (Diag.unimplementedLiteral x)
  | TokenTree.punct c =>
    match tableLookup pkeyPunctTable c with
    | Option.some n => Except.ok (Option.some n)
    | Option.none => Except.error (Diag.unimplementedPunct c)
  | TokenTree.ident label =>
    match label.data with
    | [c] =>
      if 'A' ≤ c ∧ c ≤ 'Z' then Except.ok (Option.some label)
      else if 'a' ≤ c ∧ c ≤ 'z' then Except.error (Diag.lowercaseKeyName c)
      else Except.error (Diag.unimplementedIdentChar c)
    | _ => Except.ok (Option.some label)
  | TokenTree.group _ => Except.ok Option.none

/-- Raw result of the logical resolver `get_key_raw`: a single
character (`Ok`) or a canonical name (`Err` of a `Cow`). -/
inductive KeyRaw where
  | ch (c : Char)
  | nm (s : String)

/-- `get_key_raw`: the logical-key resolver.  Single-character source
texts are returned as the character itself — including every
punctuation character — and longer names verbatim; only the three
special literals go through a table. -/
def get_key_raw : TokenTree → Except Diag (Option KeyRaw)
  | TokenTree.lit x =>
    match x.data with
    | [c] => Except.ok (Option.some (KeyRaw.ch c))
    | _ =>
      if x = apostropheText then Except.ok (Option.some (KeyRaw.nm ("Apostrophe")))
      else if x = graveText then Except.ok (Option.some (KeyRaw.nm ("Grave")))
      else if x = backslashText then Except.ok (Option.some (KeyRaw.nm ("Backslash")))
      else Except.error (Diag.unimplementedLiteral x)
  | TokenTree.punct c => Except.ok (Option.some (KeyRaw.ch c))
  | TokenTree.ident label =>
    match label.data with
    | [c] => Except.ok (Option.some (KeyRaw.ch c))
    | _ => Except.ok (Option.some (KeyRaw.nm label))
  | TokenTree.group _ => Except.ok Option.none

/-- `get_key`: render the raw logical result as the emitted string
literal. -/
def get_key : Resolver := fun t =>
  match get_key_raw t with
  | Except.error e => Except.error e
  | Except.ok Option.none => Except.ok Option.none
  | Except.ok (Option.some (KeyRaw.ch c)) => Except.ok (Option.some (Char.toString c))
  | Except.ok (Option.some (KeyRaw.nm s)) => Except.ok (Option.some s)

/-- `read_key`: take exactly one token from the stream
(`.expect("No token tree")`) and resolve it
(`.expect("No logical key found")`). -/
def read_key (G : Resolver) : List TokenTree → Except Diag (String × List TokenTree)
  | [] => Except.error Diag.noTokenTree
  | t :: rest =>
    match G t with
    | Except.error e => Except.error e
    | Except.ok Option.none => Except.error Diag.noLogicalKeyFound
    | Except.ok (Option.some k) => Except.ok (k, rest)

/-- `read_key_chord`: modifiers, then one key, packaged as a chord with
the unconsumed remainder. -/
def read_key_chord (G : Resolver) (input : List TokenTree) :
    Except Diag (Chord × List TokenTree) :=
  let p := read_modifiers input
  match read_key G p.2 with
  | Except.error e => Except.error e
  | Except.ok (k, rem) => Except.ok ((p.1, k), rem)

/-- The `pkey` entry point: one chord with the physical resolver;
leftover tokens abort with "Too many tokens". -/
def pkey (input : List TokenTree) : Except Diag Chord :=
  match read_key_chord get_pkey input with
  | Except.error e => Except.error e
  | Except.ok (c, leftover) =>
    if leftover.isEmpty then Except.ok c else Except.error Diag.tooManyTokens

/-- The `lkey` entry point: one chord with the logical resolver. -/
def lkey (input : List TokenTree) : Except Diag Chord :=
  match read_key_chord get_key input with
  | Except.error e => Except.error e
  | Except.ok (c, leftover) =>
    if leftover.isEmpty then Except.ok c else Except.error Diag.tooManyTokens

/-- The loop body of `pkeyseq`, with explicit fuel (the loop consumes
at least one token per iteration, so `input.length + 1` fuel always
suffices). -/
def pkeyseqAux (G : Resolver) : Nat → List TokenTree → Except Diag (List Chord)
  | 0, _ => Except.ok []
  | fuel+1, input =>
    match read_key_chord G input with
    | Except.error e => Except.error e
    | Except.ok (c, leftover) =>
      if leftover.isEmpty then Except.ok [c]
      else
        match pkeyseqAux G fuel leftover with
        | Except.error e => Except.error e
        | Except.ok l => Except.ok (c :: l)

/-- The `pkeyseq` entry point: iterate the chord reader on leftovers
until the stream is empty.  Note the source passes `get_key` — the
logical resolver — to the loop. -/
def pkeyseq (input : List TokenTree) : Except Diag (List Chord) :=
  pkeyseqAux get_key (input.length + 1) input

/-- Modelled from the spec: the backend-validated resolver (the `bevy`
and `winit` feature modules named in `src/macro/src/lib.rs` are not
among the sources).  Per §4.2 it shares the disambiguation rules of the
physical resolver and additionally fails with `UnknownBackendKey` when
the resolved name is not in the backend's key-constant namespace. -/
def backend_get_pkey (keyspace : List String) : Resolver := fun t =>
  match get_pkey t with
  | Except.ok (Option.some n) =>
    if n ∈ keyspace then Except.ok (Option.some n)
    else Except.error (Diag.unknownBackendKey n)
  | r => r

/-- Name of a modifier as written in the notation (the strings matched
by `read_modifiers`). -/
def Modifier.mname : Modifier → String
  | Modifier.none => ("")
  | Modifier.shift => ("shift")
  | Modifier.control => ("ctrl")
  | Modifier.alt => ("alt")
  | Modifier.super => ("super")

/-- Notation encoding of a dash-joined modifier chain:
`shift- ctrl- …` as tokens. -/
def encodePairs : List Modifier → List TokenTree
  | [] => []
  | m :: rest => TokenTree.ident m.mname :: TokenTree.punct '-' :: encodePairs rest

/-- Notation encoding of a full chord: modifier chain then key token. -/
def encodeChord (ms : List Modifier) (k : TokenTree) : List TokenTree :=
  encodePairs ms ++ [k]

/-- Notation encoding of a chord sequence with identifier keys; in a
real token stream the whitespace between chords leaves no token. -/
def encodeSeq : List (List Modifier × String) → List TokenTree
  | [] => []
  | p :: rest => encodeChord p.1 (TokenTree.ident p.2) ++ encodeSeq rest

/-- The scan output for a recognized modifier chain, without the
terminating `None` flag. -/
def modStreamCore : List Modifier → List ModTok
  | [] => []
  | m :: rest => ModTok.flag (modifiers_id m) :: ModTok.bar :: modStreamCore rest

/-- The full emitted modifier stream for a recognized chain. -/
def modStream (ms : List Modifier) : List ModTok :=
  modStreamCore ms ++ [ModTok.flag (modifiers_id Modifier.none)]

/-- Whether an emitted atom is a verbatim pass-through of an input
token (the `replacement.unwrap_or(tree)` case for an unrecognized
tree). -/
def ModTok.isRaw : ModTok → Bool
  | ModTok.raw _ => true
  | _ => false

/-- Value of a decimal digit string, the way the host compiler
evaluates a plain integer literal appearing in the generated
expression; `none` when the text is not a decimal numeral. -/
def litToNat? (x : String) : Option Nat :=
  match x.data with
  | [] => Option.none
  | l =>
    if l.all Char.isDigit
    then Option.some (l.foldl (fun acc c => 10 * acc + (c.toNat - 48)) 0)
    else Option.none

/-- Value of one operand of the emitted modifier expression: a
reader-generated flag is its number, and a passed-through numeric
literal (e.g. the `99` of input `99-A`) is the number the generated
expression would evaluate it to; other operands (pass-through idents,
puncts, groups) have no value known to the parser. -/
def modAtomValue : ModTok → Option Nat
  | ModTok.flag n => Option.some n
  | ModTok.raw (TokenTree.lit x) => litToNat? x
  | _ => Option.none

/-- Left-to-right evaluation of the tail of an emitted modifier
expression, accumulating with bitwise OR exactly as the generated
left-associated `a | b | c` expression would. -/
def evalModsTail (acc : Nat) : List ModTok → Option Nat
  | [] => Option.some acc
  | ModTok.bar :: a :: rest =>
    match modAtomValue a with
    | Option.some n => evalModsTail (Nat.lor acc n) rest
    | Option.none => Option.none
  | _ => Option.none

/-- Value of an emitted modifier expression, when it is a well-formed
`operand (| operand)*` chain of valued operands. -/
def evalMods : List ModTok → Option Nat
  | [] => Option.none
  | a :: rest =>
    match modAtomValue a with
    | Option.some n => evalModsTail n rest
    | Option.none => Option.none

/-- Bitwise OR of the flags of a modifier list. -/
def orFold : List Modifier → Nat
  | [] => 0
  | m :: rest => Nat.lor (modifiers_id m) (orFold rest)

/-! ### Helper lemmas -/

lemma modifiers_id_none : modifiers_id Modifier.none = 0 := rfl

lemma replacement_mname (m : Modifier) (h : m ≠ Modifier.none) :
    replacement (TokenTree.ident m.mname) = ModTok.flag (modifiers_id m) := by
  cases m with
  | none => exact absurd rfl h
  | shift => rfl
  | control => rfl
  | alt => rfl
  | super => rfl

lemma is_dash_ident (s : String) : is_dash (TokenTree.ident s) = false := rfl

lemma is_dash_dash : is_dash (TokenTree.punct '-') = true := rfl

lemma encodePairs_append_ne_nil (ms : List Modifier) (k : TokenTree) (rest : List TokenTree) :
    encodePairs ms ++ k :: rest ≠ [] := by
  cases ms with
  | nil => simp [encodePairs]
  | cons m r => simp [encodePairs]

lemma core_cons_stop (t t2 : TokenTree) (rest : List TokenTree)
    (h1 : is_dash t = false) (h2 : is_dash t2 = false) :
    read_modifiers_core (t :: t2 :: rest) = ([], t :: t2 :: rest) := by
  simp [read_modifiers_core, h1, h2]

lemma core_cons_consume (t t2 : TokenTree) (rest : List TokenTree)
    (h : is_dash t = true ∨ is_dash t2 = true) :
    read_modifiers_core (t :: t2 :: rest) =
      (replacement t :: (read_modifiers_core (t2 :: rest)).1,
       (read_modifiers_core (t2 :: rest)).2) := by
  have hc : (!(is_dash t) && !(is_dash t2)) = false := by
    rcases h with h | h <;> simp [h]
  simp [read_modifiers_core, hc]

lemma core_encode (ms : List Modifier) (k : TokenTree) (rest : List TokenTree)
    (hm : ∀ m ∈ ms, m ≠ Modifier.none) (hk : is_dash k = false)
    (hrest : ∀ r rs, rest = r :: rs → is_dash r = false) :
    read_modifiers_core (encodePairs ms ++ k :: rest) = (modStreamCore ms, k :: rest) := by
  induction ms with
  | nil =>
    cases rest with
    | nil => simp [encodePairs, read_modifiers_core, modStreamCore]
    | cons r rs =>
      have hr : is_dash r = false := hrest r rs rfl
      simpa [encodePairs, modStreamCore] using core_cons_stop k r rs hk hr
  | cons m ms ih =>
    have hmm : m ≠ Modifier.none := hm m (by simp)
    have ih2 := ih (fun x hx => hm x (by simp [hx]))
    cases hT : encodePairs ms ++ k :: rest with
    | nil => exact absurd hT (encodePairs_append_ne_nil ms k rest)
    | cons a as =>
      have e1 : encodePairs (m :: ms) ++ k :: rest =
          TokenTree.ident m.mname :: TokenTree.punct '-' :: (a :: as) := by
        simp [encodePairs, hT]
      rw [e1, core_cons_consume _ _ _ (Or.inr is_dash_dash),
          core_cons_consume _ _ _ (Or.inl is_dash_dash), ← hT, ih2,
          replacement_mname m hmm]
      simp [modStreamCore, replacement]

lemma read_modifiers_encode (ms : List Modifier) (k : TokenTree) (rest : List TokenTree)
    (hm : ∀ m ∈ ms, m ≠ Modifier.none) (hk : is_dash k = false)
    (hrest : ∀ r rs, rest = r :: rs → is_dash r = false) :
    read_modifiers (encodePairs ms ++ k :: rest) = (modStream ms, k :: rest) := by
  simp [read_modifiers, core_encode ms k rest hm hk hrest, modStream]

lemma get_key_ident (s : String) : get_key (TokenTree.ident s) = Except.ok (Option.some s) := by
  cases s with
  | mk data =>
    cases data with
    | nil => rfl
    | cons c cs =>
      cases cs with
      | nil => rfl
      | cons d ds => rfl

lemma chord_encode (G : Resolver) (ms : List Modifier) (k : TokenTree) (kn : String)
    (rest : List TokenTree) (hG : G k = Except.ok (Option.some kn))
    (hm : ∀ m ∈ ms, m ≠ Modifier.none) (hk : is_dash k = false)
    (hrest : ∀ r rs, rest = r :: rs → is_dash r = false) :
    read_key_chord G (encodeChord ms k ++ rest) = Except.ok ((modStream ms, kn), rest) := by
  have he : encodeChord ms k ++ rest = encodePairs ms ++ k :: rest := by
    simp [encodeChord]
  rw [read_key_chord, he, read_modifiers_encode ms k rest hm hk hrest]
  simp [read_key, hG]

lemma lor_assoc3 (a b c : Nat) : Nat.lor (Nat.lor a b) c = Nat.lor a (Nat.lor b c) :=
  Nat.lor_assoc a b c

lemma lor_comm2 (a b : Nat) : Nat.lor a b = Nat.lor b a :=
  Nat.lor_comm a b

lemma evalModsTail_bar : ∀ (r : List Modifier) (acc : Nat),
    evalModsTail acc (ModTok.bar :: modStream r) = Option.some (Nat.lor acc (orFold r)) := by
  intro r
  induction r with
  | nil => intro acc; rfl
  | cons m r ih =>
    intro acc
    show evalModsTail (Nat.lor acc (modifiers_id m)) (ModTok.bar :: modStream r) = _
    rw [ih]
    simp only [orFold]
    rw [lor_assoc3]

lemma evalMods_modStream (ms : List Modifier) :
    evalMods (modStream ms) = Option.some (orFold ms) := by
  cases ms with
  | nil => rfl
  | cons m r =>
    show evalModsTail (modifiers_id m) (ModTok.bar :: modStream r) = _
    rw [evalModsTail_bar]
    rfl

lemma orFold_perm {ms ms2 : List Modifier} (h : ms.Perm ms2) : orFold ms = orFold ms2 := by
  induction h with
  | nil => rfl
  | cons x _ ih => simp [orFold, ih]
  | swap x y l =>
    show Nat.lor (modifiers_id y) (Nat.lor (modifiers_id x) (orFold l)) =
         Nat.lor (modifiers_id x) (Nat.lor (modifiers_id y) (orFold l))
    rw [← lor_assoc3, lor_comm2 (modifiers_id y) (modifiers_id x), lor_assoc3]
  | trans _ _ ih1 ih2 => exact ih1.trans ih2

lemma core_rem_length : ∀ (input : List TokenTree),
    (read_modifiers_core input).2.length ≤ input.length := by
  intro input
  induction input with
  | nil => simp [read_modifiers_core]
  | cons t rest ih =>
    cases rest with
    | nil => simp [read_modifiers_core]
    | cons t2 rs =>
      by_cases h : (!(is_dash t) && !(is_dash t2)) = true
      · simp [read_modifiers_core, h]
      · have h2 : (!(is_dash t) && !(is_dash t2)) = false := by
          cases hb : (!(is_dash t) && !(is_dash t2)) with
          | false => rfl
          | true => exact absurd hb h
        simp only [read_modifiers_core, h2, if_false, Bool.false_eq_true]
        calc (read_modifiers_core (t2 :: rs)).2.length ≤ (t2 :: rs).length := ih
          _ ≤ (t :: t2 :: rs).length := by simp

lemma core_rem_nil_iff : ∀ (input : List TokenTree),
    (read_modifiers_core input).2 = [] ↔ input = [] := by
  intro input
  induction input with
  | nil => simp [read_modifiers_core]
  | cons t rest ih =>
    cases rest with
    | nil => simp [read_modifiers_core]
    | cons t2 rs =>
      by_cases h : (!(is_dash t) && !(is_dash t2)) = true
      · simp [read_modifiers_core, h]
      · have h2 : (!(is_dash t) && !(is_dash t2)) = false := by
          cases hb : (!(is_dash t) && !(is_dash t2)) with
          | false => rfl
          | true => exact absurd hb h
        simp only [read_modifiers_core, h2, if_false, Bool.false_eq_true]
        simp only [ih]
        simp

lemma read_key_ok_shape (G : Resolver) (input : List TokenTree) (k : String)
    (rem : List TokenTree) (h : read_key G input = Except.ok (k, rem)) :
    input.length = rem.length + 1 := by
  cases input with
  | nil => exact absurd h (by simp [read_key])
  | cons t rest =>
    simp only [read_key] at h
    cases hG : G t with
    | error e => rw [hG] at h; exact absurd h (by simp)
    | ok o =>
      cases o with
      | none => rw [hG] at h; exact absurd h (by simp)
      | some k2 =>
        rw [hG] at h
        simp at h
        simp [h.2]

lemma read_key_chord_shrinks (G : Resolver) (input : List TokenTree) (c : Chord)
    (leftover : List TokenTree) (h : read_key_chord G input = Except.ok (c, leftover)) :
    leftover.length < input.length := by
  simp only [read_key_chord] at h
  cases hk : read_key G (read_modifiers input).2 with
  | error e => rw [hk] at h; exact absurd h (by simp)
  | ok p =>
    obtain ⟨k, rem⟩ := p
    rw [hk] at h
    simp at h
    have h1 := read_key_ok_shape G (read_modifiers input).2 k rem hk
    have h2 : (read_modifiers input).2.length ≤ input.length := core_rem_length input
    rw [← h.2]
    omega

lemma pkeyseqAux_fuel (G : Resolver) : ∀ (f g : Nat) (input : List TokenTree),
    input.length < f → input.length < g →
    pkeyseqAux G f input = pkeyseqAux G g input := by
  intro f
  induction f with
  | zero => intro g input hf; exact absurd hf (Nat.not_lt_zero _)
  | succ f ih =>
    intro g input hf hg
    cases g with
    | zero => exact absurd hg (Nat.not_lt_zero _)
    | succ g2 =>
      simp only [pkeyseqAux]
      cases hrc : read_key_chord G input with
      | error e => rfl
      | ok p =>
        obtain ⟨c, leftover⟩ := p
        by_cases hemp : leftover.isEmpty
        · simp [hemp]
        · have hlt := read_key_chord_shrinks G input c leftover hrc
          have : pkeyseqAux G f leftover = pkeyseqAux G g2 leftover :=
            ih g2 leftover (by omega) (by omega)
          simp [hemp, this]

lemma pkeyseqAux_ok_ne_nil (G : Resolver) (f : Nat) (input : List TokenTree)
    (l : List Chord) (hf : 0 < f) (h : pkeyseqAux G f input = Except.ok l) : l ≠ [] := by
  cases f with
  | zero => exact absurd hf (by omega)
  | succ f =>
    simp only [pkeyseqAux] at h
    cases hrc : read_key_chord G input with
    | error e => rw [hrc] at h; exact absurd h (by simp)
    | ok p =>
      obtain ⟨c, leftover⟩ := p
      rw [hrc] at h
      by_cases hemp : leftover.isEmpty
      · simp [hemp] at h
        simp [← h]
      · simp [hemp] at h
        cases hr : pkeyseqAux G f leftover with
        | error e => rw [hr] at h; exact absurd h (by simp)
        | ok l2 =>
          rw [hr] at h
          simp at h
          simp [← h]

lemma encodeSeq_cons_shape (p : List Modifier × String) (rest : List (List Modifier × String)) :
    ∃ s t, encodeSeq (p :: rest) = TokenTree.ident s :: t := by
  cases hp : p.1 with
  | nil => exact ⟨p.2, encodeSeq rest, by simp [encodeSeq, encodeChord, hp, encodePairs]⟩
  | cons m ms =>
    exact ⟨m.mname, (TokenTree.punct '-' :: encodePairs ms) ++ [TokenTree.ident p.2] ++ encodeSeq rest,
      by simp [encodeSeq, encodeChord, hp, encodePairs]⟩

lemma encodeSeq_head_not_dash (rest : List (List Modifier × String)) :
    ∀ r rs, encodeSeq rest = r :: rs → is_dash r = false := by
  intro r rs h
  cases rest with
  | nil => simp [encodeSeq] at h
  | cons q qs =>
    obtain ⟨s, t, hs⟩ := encodeSeq_cons_shape q qs
    rw [hs] at h
    have hr : r = TokenTree.ident s := by
      cases h
      rfl
    rw [hr]
    rfl

lemma encodeChord_length_pos (ms : List Modifier) (k : TokenTree) :
    1 ≤ (encodeChord ms k).length := by
  simp [encodeChord]

lemma pkeyseq_aux_encode : ∀ (chords : List (List Modifier × String)) (f : Nat),
    chords ≠ [] → (∀ p ∈ chords, ∀ m ∈ p.1, m ≠ Modifier.none) →
    (encodeSeq chords).length < f →
    pkeyseqAux get_key f (encodeSeq chords) =
      Except.ok (chords.map (fun p => (modStream p.1, p.2))) := by
  intro chords
  induction chords with
  | nil => intro f h; exact absurd rfl h
  | cons p rest ih =>
    intro f _ hm hf
    have hp : ∀ m ∈ p.1, m ≠ Modifier.none := hm p (by simp)
    cases f with
    | zero => exact absurd hf (Nat.not_lt_zero _)
    | succ f =>
      have hstep : read_key_chord get_key (encodeChord p.1 (TokenTree.ident p.2) ++ encodeSeq rest) =
          Except.ok ((modStream p.1, p.2), encodeSeq rest) :=
        chord_encode get_key p.1 (TokenTree.ident p.2) p.2 (encodeSeq rest)
          (get_key_ident p.2) hp rfl (encodeSeq_head_not_dash rest)
      have hse : encodeSeq (p :: rest) = encodeChord p.1 (TokenTree.ident p.2) ++ encodeSeq rest := rfl
      simp only [pkeyseqAux, hse, hstep]
      cases rest with
      | nil => simp [encodeSeq]
      | cons q qs =>
        obtain ⟨s, t, hs⟩ := encodeSeq_cons_shape q qs
        have hne : (encodeSeq (q :: qs)).isEmpty = false := by rw [hs]; rfl
        have hlen : (encodeSeq (q :: qs)).length < f := by
          have h1 := encodeChord_length_pos p.1 (TokenTree.ident p.2)
          rw [hse] at hf
          simp only [List.length_append] at hf
          omega
        have hrec := ih f (by simp) (fun x hx => hm x (by simp [hx])) hlen
        simp [hne, hrec]

lemma replacement_flag_values (t : TokenTree) (n : Nat)
    (h : replacement t = ModTok.flag n) : n = 1 ∨ n = 2 ∨ n = 4 ∨ n = 8 := by
  cases t with
  | lit x => exact absurd h (by simp [replacement])
  | group g => exact absurd h (by simp [replacement])
  | punct c =>
    by_cases hc : c = '-'
    · simp [replacement, hc] at h
    · simp [replacement, hc] at h
  | ident l =>
    simp only [replacement] at h
    by_cases h1 : l = ("shift")
    · simp [h1] at h; left; rw [← h]; rfl
    · by_cases h2 : l = ("ctrl")
      · simp [h1, h2] at h; right; left; rw [← h]; rfl
      · by_cases h3 : l = ("alt")
        · simp [h1, h2, h3] at h; right; right; left; rw [← h]; rfl
        · by_cases h4 : l = ("super")
          · simp [h1, h2, h3, h4] at h; right; right; right; rw [← h]; rfl
          · simp [h1, h2, h3, h4] at h

lemma core_flag_values : ∀ (input : List TokenTree) (n : Nat),
    ModTok.flag n ∈ (read_modifiers_core input).1 → n = 1 ∨ n = 2 ∨ n = 4 ∨ n = 8 := by
  intro input
  induction input with
  | nil => intro n h; simp [read_modifiers_core] at h
  | cons t rest ih =>
    cases rest with
    | nil => intro n h; simp [read_modifiers_core] at h
    | cons t2 rs =>
      intro n h
      by_cases hc : (!(is_dash t) && !(is_dash t2)) = true
      · simp [read_modifiers_core, hc] at h
      · have h2 : (!(is_dash t) && !(is_dash t2)) = false := by
          cases hb : (!(is_dash t) && !(is_dash t2)) with
          | false => rfl
          | true => exact absurd hb hc
        simp only [read_modifiers_core, h2, if_false, Bool.false_eq_true, List.mem_cons] at h
        cases h with
        | inl h => exact replacement_flag_values t n h.symm
        | inr h => exact ih n h

lemma read_modifiers_flag_values (input : List TokenTree) (n : Nat)
    (h : ModTok.flag n ∈ (read_modifiers input).1) :
    n = 0 ∨ n = 1 ∨ n = 2 ∨ n = 4 ∨ n = 8 := by
  simp only [read_modifiers, List.mem_append] at h
  cases h with
  | inl h =>
    rcases core_flag_values input n h with h | h | h | h
    · right; left; exact h
    · right; right; left; exact h
    · right; right; right; left; exact h
    · right; right; right; right; exact h
  | inr h =>
    left
    simp at h
    rw [h]
    rfl

lemma lor_bound : ∀ a, a < 16 → ∀ b, b < 16 → Nat.lor a b < 16 := by decide

lemma evalModsTail_bound : ∀ (k : Nat) (l : List ModTok) (acc : Nat), l.length ≤ k →
    acc < 16 → (∀ n, ModTok.flag n ∈ l → n < 16) →
    l.all (fun a => !(a.isRaw)) = true →
    ∀ v, evalModsTail acc l = Option.some v → v < 16 := by
  intro k
  induction k with
  | zero =>
    intro l acc hl hacc hf hall v hv
    cases l with
    | nil =>
      have : acc = v := Option.some.inj hv
      rw [← this]; exact hacc
    | cons a t => simp at hl
  | succ k ih =>
    intro l acc hl hacc hf hall v hv
    cases l with
    | nil =>
      have : acc = v := Option.some.inj hv
      rw [← this]; exact hacc
    | cons a t =>
      cases a with
      | flag n => exact Option.noConfusion hv
      | raw x => exact Option.noConfusion hv
      | bar =>
        cases t with
        | nil => exact Option.noConfusion hv
        | cons b t2 =>
          cases b with
          | bar => exact Option.noConfusion hv
          | raw x => simp [List.all_cons, ModTok.isRaw] at hall
          | flag n =>
            have hv2 : evalModsTail (Nat.lor acc n) t2 = Option.some v := hv
            have hn : n < 16 := hf n (by simp)
            have hacc2 : Nat.lor acc n < 16 := lor_bound acc hacc n hn
            have hlen : t2.length ≤ k := by simp at hl; omega
            have hall2 : t2.all (fun a => !(a.isRaw)) = true := by
              simp only [List.all_cons, Bool.and_eq_true] at hall
              exact hall.2.2
            exact ih t2 (Nat.lor acc n) hlen hacc2 (fun m hm => hf m (by simp [hm])) hall2 v hv2

lemma evalMods_bound (l : List ModTok) (hf : ∀ n, ModTok.flag n ∈ l → n < 16)
    (hall : l.all (fun a => !(a.isRaw)) = true)
    (v : Nat) (hv : evalMods l = Option.some v) : v < 16 := by
  cases l with
  | nil => exact Option.noConfusion hv
  | cons a t =>
    cases a with
    | bar => exact Option.noConfusion hv
    | raw x => simp [List.all_cons, ModTok.isRaw] at hall
    | flag n =>
      have hv2 : evalModsTail n t = Option.some v := hv
      have hall2 : t.all (fun a => !(a.isRaw)) = true := by
        simp only [List.all_cons, Bool.and_eq_true] at hall
        exact hall.2
      exact evalModsTail_bound t.length t n (by omega) (hf n (by simp))
        (fun m hm => hf m (by simp [hm])) hall2 v hv2

lemma replacement_dash : replacement (TokenTree.punct '-') = ModTok.bar := rfl

lemma replacement_ident_raw (s : String) (h : ∀ m : Modifier, s ≠ m.mname) :
    replacement (TokenTree.ident s) = ModTok.raw (TokenTree.ident s) := by
  have h1 : ¬ s = ("shift") := by have := h Modifier.shift; simpa [Modifier.mname] using this
  have h2 : ¬ s = ("ctrl") := by have := h Modifier.control; simpa [Modifier.mname] using this
  have h3 : ¬ s = ("alt") := by have := h Modifier.alt; simpa [Modifier.mname] using this
  have h4 : ¬ s = ("super") := by have := h Modifier.super; simpa [Modifier.mname] using this
  simp [replacement, h1, h2, h3, h4]

lemma read_modifiers_pair_step (t : TokenTree) (rest : List TokenTree) (hr : rest ≠ []) :
    read_modifiers (t :: TokenTree.punct '-' :: rest) =
      (replacement t :: ModTok.bar :: (read_modifiers rest).1, (read_modifiers rest).2) := by
  cases rest with
  | nil => exact absurd rfl hr
  | cons r rs =>
    rw [read_modifiers, core_cons_consume t (TokenTree.punct '-') (r :: rs) (Or.inr is_dash_dash),
        core_cons_consume (TokenTree.punct '-') r rs (Or.inl is_dash_dash), replacement_dash]
    simp [read_modifiers]

/-! ### Claim theorems -/

/-- C1 (amended): the Modifier Chain Reader consumes the current token
whenever a following token exists and the current token or the next
token is the dash separator — it does not check that a consumed name is
a recognized modifier.  Recognized modifier names contribute their
flag, the dash becomes the OR operator, and any other consumed token is
passed through verbatim into the modifier expression.  The scan stops
at the first token that is neither a dash nor followed by a dash, or at
the final token; that token is left unconsumed at the head of the
remaining stream (in particular a lone modifier name with no trailing
dash is left to be resolved as the key itself). -/
theorem claim_C1 :
    (∀ t : TokenTree, read_modifiers [t] = ([ModTok.flag 0], [t])) ∧
    (∀ (t t2 : TokenTree) (rest : List TokenTree), is_dash t = false → is_dash t2 = false →
      read_modifiers (t :: t2 :: rest) = ([ModTok.flag 0], t :: t2 :: rest)) ∧
    (∀ (m : Modifier) (rest : List TokenTree), rest ≠ [] → m ≠ Modifier.none →
      read_modifiers (TokenTree.ident m.mname :: TokenTree.punct '-' :: rest) =
        (ModTok.flag (modifiers_id m) :: ModTok.bar :: (read_modifiers rest).1,
         (read_modifiers rest).2)) ∧
    (∀ (s : String) (rest : List TokenTree), rest ≠ [] → (∀ m : Modifier, s ≠ m.mname) →
      read_modifiers (TokenTree.ident s :: TokenTree.punct '-' :: rest) =
        (ModTok.raw (TokenTree.ident s) :: ModTok.bar :: (read_modifiers rest).1,
         (read_modifiers rest).2)) := by
  refine ⟨?_, ?_, ?_, ?_⟩
  · intro t; rfl
  · intro t t2 rest h1 h2
    simp [read_modifiers, core_cons_stop t t2 rest h1 h2, modifiers_id_none]
  · intro m rest hr hm
    rw [read_modifiers_pair_step (TokenTree.ident m.mname) rest hr, replacement_mname m hm]
  · intro s rest hr hs
    rw [read_modifiers_pair_step (TokenTree.ident s) rest hr, replacement_ident_raw s hs]

/-- C1 witness: `shift-A` at concrete tokens, via the
recognized-pair clause of the theorem. -/
theorem claim_C1_witness :
    read_modifiers [TokenTree.ident (Modifier.shift.mname), TokenTree.punct '-',
      TokenTree.ident ("A")] =
      ([ModTok.flag 1, ModTok.bar, ModTok.flag 0], [TokenTree.ident ("A")]) := by
  rw [claim_C1.2.2.1 Modifier.shift [TokenTree.ident ("A")] (by simp) (by decide)]
  rfl

/-- C1 counterexample: the unrecognized name `foo` followed by a dash
is consumed (and passed through into the modifier stream), so the
remaining stream is `[A]` — not the full input with `foo` at its head
as the claim states. -/
theorem claim_C1_counterexample :
    read_modifiers [TokenTree.ident ("foo"), TokenTree.punct '-', TokenTree.ident ("A")] =
      ([ModTok.raw (TokenTree.ident ("foo")), ModTok.bar, ModTok.flag 0],
       [TokenTree.ident ("A")]) ∧
    [TokenTree.ident ("A")] ≠
      [TokenTree.ident ("foo"), TokenTree.punct '-', TokenTree.ident ("A")] := by
  refine ⟨rfl, ?_⟩
  intro h
  have := congrArg List.length h
  simp at this

/-- C2 (amended): the sequence entry point is the *logical* single-chord
parser iterated on leftover remainders: `pkeyseq` yields a one-element
list with chord `c` exactly when `lkey` returns `c` on the same input.
It is not the physical single-chord entry point `pkey` iterated — the
two entry points use different resolvers and disagree, e.g. on the
input `1` (see the counterexample). -/
theorem claim_C2 : ∀ (input : List TokenTree) (c : Chord),
    lkey input = Except.ok c ↔ pkeyseq input = Except.ok [c] := by
  intro input c
  constructor
  · intro h
    simp only [lkey] at h
    cases hrc : read_key_chord get_key input with
    | error e => rw [hrc] at h; exact absurd h (by simp)
    | ok p =>
      obtain ⟨c1, leftover⟩ := p
      rw [hrc] at h
      by_cases hemp : leftover.isEmpty
      · simp [hemp] at h
        simp only [pkeyseq, pkeyseqAux, hrc, hemp, if_true]
        rw [h]
      · simp [hemp] at h
  · intro h
    simp only [pkeyseq, pkeyseqAux] at h
    cases hrc : read_key_chord get_key input with
    | error e => rw [hrc] at h; exact absurd h (by simp)
    | ok p =>
      obtain ⟨c1, leftover⟩ := p
      rw [hrc] at h
      by_cases hemp : leftover.isEmpty
      · simp [hemp] at h
        simp [lkey, hrc, hemp, h]
      · simp only [hemp, if_false, Bool.false_eq_true] at h
        cases hr : pkeyseqAux get_key input.length leftover with
        | error e => rw [hr] at h; exact absurd h (by simp)
        | ok l =>
          rw [hr] at h
          simp at h
          have hlt := read_key_chord_shrinks get_key input c1 leftover hrc
          have hne := pkeyseqAux_ok_ne_nil get_key input.length leftover l (by omega) hr
          exact absurd h.2 hne

/-- C2 witness: on `Escape`, `lkey` succeeds and the theorem transports
the chord to a one-element `pkeyseq` result. -/
theorem claim_C2_witness :
    pkeyseq [TokenTree.ident ("Escape")] =
      Except.ok [([ModTok.flag 0], ("Escape"))] :=
  (claim_C2 [TokenTree.ident ("Escape")] ([ModTok.flag 0], ("Escape"))).mp rfl

/-- C2 counterexample: on input `1` the physical single-chord entry
point yields key `Key1` while the sequence entry point yields the
one-element list with key `1` — the claimed agreement with the
single-chord (physical) entry point fails. -/
theorem claim_C2_counterexample :
    pkey [TokenTree.lit ("1")] = Except.ok ([ModTok.flag 0], ("Key1")) ∧
    pkeyseq [TokenTree.lit ("1")] = Except.ok [([ModTok.flag 0], ("1"))] ∧
    ("Key1" : String) ≠ ("1") := by
  refine ⟨rfl, rfl, ?_⟩
  decide

/-- C3 (amended): a modifier chain with no key token after it does not
fail with a missing-key diagnostic.  The modifier reader's remainder is
empty only when the whole input was empty (in which case taking a key
fails with the "No token tree" panic); for an input such as `ctrl-`
the trailing dash separator itself is left in the remainder and is
consumed by the Key Resolver as the key — `Minus` under the physical
resolver and the character `-` under the logical one — producing a
chord (whose modifier expression is left without a joining operator
before the terminating zero flag). -/
theorem claim_C3 :
    (∀ input : List TokenTree, (read_modifiers input).2 = [] ↔ input = []) ∧
    (∀ G : Resolver, read_key G [] = Except.error Diag.noTokenTree) ∧
    (read_key_chord get_pkey [TokenTree.ident ("ctrl"), TokenTree.punct '-'] =
      Except.ok (([ModTok.flag 2, ModTok.flag 0], ("Minus")), [])) ∧
    (read_key_chord get_key [TokenTree.ident ("ctrl"), TokenTree.punct '-'] =
      Except.ok (([ModTok.flag 2, ModTok.flag 0], ("-")), [])) := by
  refine ⟨?_, ?_, rfl, rfl⟩
  · intro input
    simpa [read_modifiers] using core_rem_nil_iff input
  · intro G; rfl

/-- C3 counterexample: on `ctrl-` the chord assembler succeeds — it
produces the chord with key `Minus` (the separator is consumed as the
key) and never an error. -/
theorem claim_C3_counterexample :
    read_key_chord get_pkey [TokenTree.ident ("ctrl"), TokenTree.punct '-'] =
      Except.ok (([ModTok.flag 2, ModTok.flag 0], ("Minus")), []) ∧
    ∀ e : Diag, read_key_chord get_pkey [TokenTree.ident ("ctrl"), TokenTree.punct '-'] ≠
      Except.error e := by
  refine ⟨rfl, ?_⟩
  intro e h
  have h2 : (Except.ok ((([ModTok.flag 2, ModTok.flag 0], ("Minus")), ([] : List TokenTree))) :
      Except Diag (Chord × List TokenTree)) = Except.error e := h
  exact Except.noConfusion h2

/-- C4 (amended): under the physical-key resolver the KeyId of a
punctuation token is always derived through the fixed disambiguation
table and a symbol outside the table is a hard error, as is a literal
outside the digit rule and the three-entry literal table.  Under the
logical resolver, however, every punctuation character — mapped or not —
is passed through as its own identity KeyId; the "under every
resolver" quantification of the claim fails. -/
theorem claim_C4 :
    (∀ (c : Char) (n : String), tableLookup pkeyPunctTable c = Option.some n →
      get_pkey (TokenTree.punct c) = Except.ok (Option.some n)) ∧
    (∀ c : Char, tableLookup pkeyPunctTable c = Option.none →
      get_pkey (TokenTree.punct c) = Except.error (Diag.unimplementedPunct c)) ∧
    (∀ x : String, digitLit x = false → x ≠ apostropheText → x ≠ graveText →
      x ≠ backslashText →
      get_pkey (TokenTree.lit x) = Except.error (Diag.unimplementedLiteral x)) ∧
    (∀ c : Char, get_key (TokenTree.punct c) = Except.ok (Option.some (Char.toString c))) := by
  refine ⟨?_, ?_, ?_, ?_⟩
  · intro c n h; simp [get_pkey, h]
  · intro c h; simp [get_pkey, h]
  · intro x h1 h2 h3 h4; simp [get_pkey, h1, h2, h3, h4]
  · intro c; rfl

/-- C4 witness: the unmapped symbol `!` errors under the physical
resolver and passes through as itself under the logical one. -/
theorem claim_C4_witness :
    get_pkey (TokenTree.punct '!') = Except.error (Diag.unimplementedPunct '!') ∧
    get_key (TokenTree.punct '!') = Except.ok (Option.some (Char.toString '!')) :=
  ⟨claim_C4.2.1 '!' rfl, claim_C4.2.2.2 '!'⟩

/-- C4 counterexample: `!` is outside the fixed punctuation table, yet
the logical resolver silently returns it as its own identity KeyId. -/
theorem claim_C4_counterexample :
    get_key (TokenTree.punct '!') = Except.ok (Option.some ("!")) ∧
    tableLookup pkeyPunctTable '!' = Option.none :=
  ⟨rfl, rfl⟩

/-- C5: for any modifier chain (each name one of shift/ctrl/alt/super)
written dash-joined before a key the physical resolver accepts, the
chord's modifier expression evaluates to the bitwise OR of the
individual flags (Shift=1, Control=2, Alt=4, Super=8) of exactly the
modifiers written, and that OR is invariant under reordering of the
chain. -/
theorem claim_C5 (ms ms2 : List Modifier) (key : TokenTree) (kn : String)
    (hm : ∀ m ∈ ms, m ≠ Modifier.none) (hp : ms.Perm ms2)
    (hk : is_dash key = false) (hG : get_pkey key = Except.ok (Option.some kn)) :
    read_key_chord get_pkey (encodeChord ms key) = Except.ok ((modStream ms, kn), []) ∧
    evalMods (modStream ms) = Option.some (orFold ms) ∧
    orFold ms = orFold ms2 := by
  refine ⟨?_, evalMods_modStream ms, orFold_perm hp⟩
  have h := chord_encode get_pkey ms key kn [] hG hm hk (by intro r rs hcon; simp at hcon)
  simpa using h

/-- C5 witness: `shift-ctrl-A` and `ctrl-shift-A` both give mask 3. -/
theorem claim_C5_witness :
    read_key_chord get_pkey
      (encodeChord [Modifier.shift, Modifier.control] (TokenTree.ident ("A"))) =
      Except.ok ((modStream [Modifier.shift, Modifier.control], ("A")), []) ∧
    evalMods (modStream [Modifier.shift, Modifier.control]) = Option.some 3 ∧
    orFold [Modifier.shift, Modifier.control] = orFold [Modifier.control, Modifier.shift] := by
  have h := claim_C5 [Modifier.shift, Modifier.control] [Modifier.control, Modifier.shift]
    (TokenTree.ident ("A")) ("A") (by decide) (by decide) rfl rfl
  refine ⟨h.1, ?_, h.2.2⟩
  rw [h.2.1]
  rfl

/-- C6 (amended): under the physical-key resolver the punctuation table
has exactly 11 entries (not 12 as the claim counts them), mapping
`;`→Semicolon, `:`→Colon, `,`→Comma, `.`→Period, `^`→Caret,
`=`→Equals, `/`→Slash, `-`→Minus, `*`→Asterisk, `+`→Plus, `@`→At; a
single-digit literal `d` maps to `Key{d}`; and `alt-ctrl-;`, `1` and
`alt-1` parse to mask/key pairs (6, Semicolon), (0, Key1) and
(4, Key1). -/
theorem claim_C6 :
    (get_pkey (TokenTree.punct ';') = Except.ok (Option.some ("Semicolon"))) ∧
    (get_pkey (TokenTree.punct ':') = Except.ok (Option.some ("Colon"))) ∧
    (get_pkey (TokenTree.punct ',') = Except.ok (Option.some ("Comma"))) ∧
    (get_pkey (TokenTree.punct '.') = Except.ok (Option.some ("Period"))) ∧
    (get_pkey (TokenTree.punct '^') = Except.ok (Option.some ("Caret"))) ∧
    (get_pkey (TokenTree.punct '=') = Except.ok (Option.some ("Equals"))) ∧
    (get_pkey (TokenTree.punct '/') = Except.ok (Option.some ("Slash"))) ∧
    (get_pkey (TokenTree.punct '-') = Except.ok (Option.some ("Minus"))) ∧
    (get_pkey (TokenTree.punct '*') = Except.ok (Option.some ("Asterisk"))) ∧
    (get_pkey (TokenTree.punct '+') = Except.ok (Option.some ("Plus"))) ∧
    (get_pkey (TokenTree.punct '@') = Except.ok (Option.some ("At"))) ∧
    (∀ c : Char, c.isDigit = true →
      get_pkey (TokenTree.lit (String.singleton c)) =
        Except.ok (Option.some ("Key" ++ String.singleton c))) ∧
    (pkey [TokenTree.ident ("alt"), TokenTree.punct '-', TokenTree.ident ("ctrl"),
        TokenTree.punct '-', TokenTree.punct ';'] =
      Except.ok ([ModTok.flag 4, ModTok.bar, ModTok.flag 2, ModTok.bar, ModTok.flag 0],
        ("Semicolon"))) ∧
    (evalMods [ModTok.flag 4, ModTok.bar, ModTok.flag 2, ModTok.bar, ModTok.flag 0] =
      Option.some 6) ∧
    (pkey [TokenTree.lit ("1")] = Except.ok ([ModTok.flag 0], ("Key1"))) ∧
    (pkey [TokenTree.ident ("alt"), TokenTree.punct '-', TokenTree.lit ("1")] =
      Except.ok ([ModTok.flag 4, ModTok.bar, ModTok.flag 0], ("Key1"))) ∧
    (evalMods [ModTok.flag 4, ModTok.bar, ModTok.flag 0] = Option.some 4) ∧
    pkeyPunctTable.length = 11 := by
  refine ⟨rfl, rfl, rfl, rfl, rfl, rfl, rfl, rfl, rfl, rfl, rfl, ?_, rfl, rfl, rfl, rfl, rfl, rfl⟩
  intro c h
  have hd : digitLit (String.singleton c) = true := by
    simp [digitLit, String.singleton, h]
  show (if digitLit (String.singleton c) then
      Except.ok (Option.some ("Key" ++ String.singleton c))
    else if String.singleton c = apostropheText then Except.ok (Option.some ("Apostrophe"))
    else if String.singleton c = graveText then Except.ok (Option.some ("Grave"))
    else if String.singleton c = backslashText then Except.ok (Option.some ("Backslash"))
    else Except.error (Diag.unimplementedLiteral (String.singleton c))) = _
  rw [hd]
  simp

/-- C6 witness: the digit rule of the theorem applied at `7`. -/
theorem claim_C6_witness :
    get_pkey (TokenTree.lit (String.singleton '7')) =
      Except.ok (Option.some ("Key" ++ String.singleton '7')) :=
  claim_C6.2.2.2.2.2.2.2.2.2.2.2.1 '7' rfl

/-- C6 counterexample: the fixed punctuation table has 11 entries, not
12 as the claim states. -/
theorem claim_C6_counterexample :
    pkeyPunctTable.length = 11 ∧ pkeyPunctTable.length ≠ 12 := by
  refine ⟨rfl, ?_⟩
  decide

/-- C7: under the physical-key resolver an uppercase single-letter name
is used verbatim as the KeyId, and a lowercase single-letter name
always fails with the lowercase-key-name diagnostic ("Use uppercase
key names") — the case is never silently normalized. -/
theorem claim_C7 :
    (∀ c : Char, 'A' ≤ c → c ≤ 'Z' →
      get_pkey (TokenTree.ident (String.singleton c)) =
        Except.ok (Option.some (String.singleton c))) ∧
    (∀ c : Char, 'a' ≤ c → c ≤ 'z' →
      get_pkey (TokenTree.ident (String.singleton c)) =
        Except.error (Diag.lowercaseKeyName c)) := by
  constructor
  · intro c h1 h2
    show (if 'A' ≤ c ∧ c ≤ 'Z' then Except.ok (Option.some (String.singleton c))
      else if 'a' ≤ c ∧ c ≤ 'z' then Except.error (Diag.lowercaseKeyName c)
      else Except.error (Diag.unimplementedIdentChar c)) = _
    rw [if_pos ⟨h1, h2⟩]
  · intro c h1 h2
    show (if 'A' ≤ c ∧ c ≤ 'Z' then Except.ok (Option.some (String.singleton c))
      else if 'a' ≤ c ∧ c ≤ 'z' then Except.error (Diag.lowercaseKeyName c)
      else Except.error (Diag.unimplementedIdentChar c)) = _
    have hno : ¬ ('A' ≤ c ∧ c ≤ 'Z') := by
      intro hc
      have hlt : c < 'a' := lt_of_le_of_lt hc.2 (by decide)
      exact absurd h1 (not_le_of_lt hlt)
    rw [if_neg hno, if_pos ⟨h1, h2⟩]

/-- C7 witness: `A` resolves verbatim; `a` fails with the diagnostic. -/
theorem claim_C7_witness :
    get_pkey (TokenTree.ident (String.singleton 'A')) =
      Except.ok (Option.some (String.singleton 'A')) ∧
    get_pkey (TokenTree.ident (String.singleton 'a')) =
      Except.error (Diag.lowercaseKeyName 'a') :=
  ⟨claim_C7.1 'A' (by decide) (by decide), claim_C7.2 'a' (by decide) (by decide)⟩

/-- C8: the sequence entry point returns one chord per written chord
notation, in textual left-to-right order, and the generic resolver it
uses accepts any identifier key verbatim without validating it against
a key namespace. -/
theorem claim_C8 (chords : List (List Modifier × String)) (h0 : chords ≠ [])
    (hm : ∀ p ∈ chords, ∀ m ∈ p.1, m ≠ Modifier.none) :
    pkeyseq (encodeSeq chords) =
      Except.ok (chords.map (fun p => (modStream p.1, p.2))) := by
  show pkeyseqAux get_key ((encodeSeq chords).length + 1) (encodeSeq chords) = _
  exact pkeyseq_aux_encode chords ((encodeSeq chords).length + 1) h0 hm (by omega)

/-- C8 witness: `shift-A ctrl-B` yields the two chords in order, and
`A NoSuchKey` succeeds with the unvalidated name. -/
theorem claim_C8_witness :
    pkeyseq (encodeSeq [([Modifier.shift], ("A")), ([Modifier.control], ("B"))]) =
      Except.ok [(modStream [Modifier.shift], ("A")), (modStream [Modifier.control], ("B"))] ∧
    pkeyseq (encodeSeq [([], ("A")), ([], ("NoSuchKey"))]) =
      Except.ok [(modStream [], ("A")), (modStream [], ("NoSuchKey"))] := by
  constructor
  · have h := claim_C8 [([Modifier.shift], ("A")), ([Modifier.control], ("B"))]
      (by simp) (by decide)
    simpa using h
  · have h := claim_C8 [([], ("A")), ([], ("NoSuchKey"))] (by simp) (by decide)
    simpa using h

/-- C9 (amended): every flag the modifier reader itself emits is one
of 0, 1, 2, 4 or 8, and for any parse whose emitted modifier stream
contains no verbatim pass-through token, an evaluated mask is below 16.
The invariant does not extend to all finalized chords: a token consumed
and passed through verbatim contributes its own value to the chord's
mask — e.g. `99-A` parses successfully to a chord whose modifier
expression evaluates to mask 99, with bits outside 0–15 set. -/
theorem claim_C9 :
    (∀ (input : List TokenTree) (n : Nat), ModTok.flag n ∈ (read_modifiers input).1 →
      n = 0 ∨ n = 1 ∨ n = 2 ∨ n = 4 ∨ n = 8) ∧
    (∀ (input : List TokenTree) (v : Nat),
      (read_modifiers input).1.all (fun a => !(a.isRaw)) = true →
      evalMods (read_modifiers input).1 = Option.some v → v < 16) ∧
    (pkey [TokenTree.lit ("99"), TokenTree.punct '-', TokenTree.ident ("A")] =
      Except.ok ([ModTok.raw (TokenTree.lit ("99")), ModTok.bar, ModTok.flag 0], ("A"))) ∧
    (evalMods [ModTok.raw (TokenTree.lit ("99")), ModTok.bar, ModTok.flag 0] =
      Option.some 99) := by
  refine ⟨?_, ?_, rfl, rfl⟩
  · intro input n h
    exact read_modifiers_flag_values input n h
  · intro input v hall hv
    apply evalMods_bound (read_modifiers input).1 _ hall v hv
    intro n hn
    rcases read_modifiers_flag_values input n hn with h | h | h | h | h <;> omega

/-- C9 witness: for `shift-ctrl-A` the emitted stream is pass-through
free and evaluates to 3, which the theorem bounds below 16. -/
theorem claim_C9_witness :
    evalMods (read_modifiers [TokenTree.ident ("shift"), TokenTree.punct '-',
      TokenTree.ident ("ctrl"), TokenTree.punct '-', TokenTree.ident ("A")]).1 =
      Option.some 3 ∧ (3 : Nat) < 16 :=
  ⟨rfl, claim_C9.2.1 [TokenTree.ident ("shift"), TokenTree.punct '-',
      TokenTree.ident ("ctrl"), TokenTree.punct '-', TokenTree.ident ("A")] 3 rfl rfl⟩

/-- C9 counterexample: `99-A` parses successfully — the literal `99` is
consumed (its successor is a dash) and passed through verbatim into the
modifier expression, so the finalized chord's mask evaluates to 99,
which is not a combination of the four bits 0–15. -/
theorem claim_C9_counterexample :
    pkey [TokenTree.lit ("99"), TokenTree.punct '-', TokenTree.ident ("A")] =
      Except.ok ([ModTok.raw (TokenTree.lit ("99")), ModTok.bar, ModTok.flag 0], ("A")) ∧
    evalMods [ModTok.raw (TokenTree.lit ("99")), ModTok.bar, ModTok.flag 0] =
      Option.some 99 ∧
    ¬ ((99 : Nat) < 16) := by
  refine ⟨rfl, rfl, ?_⟩
  decide

/-- C10: a delimited group token in the key position is rejected by all
three resolvers — physical, logical, and (spec-modelled) backend
validated — so `read_key` fails with "No logical key found" and no
chord is produced. -/
theorem claim_C10 : ∀ (inner rest : List TokenTree) (keyspace : List String),
    get_pkey (TokenTree.group inner) = Except.ok Option.none ∧
    get_key (TokenTree.group inner) = Except.ok Option.none ∧
    backend_get_pkey keyspace (TokenTree.group inner) = Except.ok Option.none ∧
    read_key get_pkey (TokenTree.group inner :: rest) = Except.error Diag.noLogicalKeyFound ∧
    read_key get_key (TokenTree.group inner :: rest) = Except.error Diag.noLogicalKeyFound ∧
    read_key (backend_get_pkey keyspace) (TokenTree.group inner :: rest) =
      Except.error Diag.noLogicalKeyFound := by
  intro inner rest keyspace
  exact ⟨rfl, rfl, rfl, rfl, rfl, rfl⟩
